import Mathlib

/-!
Verification development for the Aces Unknown orchestration scripts
(onchain/scripts and onchain/tests).  The JavaScript/TypeScript sources are
shallowly embedded: byte buffers become `List Nat` (each entry a byte value),
the Node `crypto` SHA-256 digest is implemented in full, and the Solana
program-derived-address (PDA) resolver is modelled as an injective transcript
of its inputs (the collision-resistance idealization of its hash; the real
derivation additionally searches for an off-curve bump, which lies outside a
shallow embedding).  Chain interaction is modelled by explicit state passing
and oracles for the RPC reads and submissions the scripts perform.
-/

namespace AcesUnknown

/-- Truncate to a 32-bit word, as every JavaScript 32-bit write does. -/
def w32 (n : Nat) : Nat := n % 4294967296

/-- Little-endian byte encoding of `n` on `k` bytes (base-256 digits, least
significant first), the semantics of `Buffer.write*LE`. -/
def natToLE : Nat → Nat → List Nat
  | 0, _ => []
  | k + 1, n => n % 256 :: natToLE k (n / 256)

/-- Decode a little-endian byte list back to a natural number, the semantics
of `Buffer.read*LE`. -/
def fromLEBytes (bs : List Nat) : Nat :=
  bs.foldr (fun b acc => b + 256 * acc) 0

/-- Decode a big-endian byte list, the semantics of `Buffer.read*BE`. -/
def fromBEBytes (bs : List Nat) : Nat :=
  bs.foldl (fun acc b => acc * 256 + b) 0

/-- Big-endian byte encoding of `n` on `k` bytes. -/
def natToBE (k n : Nat) : List Nat := (natToLE k n).reverse

/-- Embeds `toU64LE` of onchain/scripts/e2e-start-hand.js:
`const b = Buffer.alloc(8); b.writeBigUInt64LE(BigInt(n)); return b`. -/
def toU64LE (n : Nat) : List Nat := natToLE 8 n

/-- Four-byte little-endian encoding, the semantics of `writeUInt32LE`. -/
def toU32LE (n : Nat) : List Nat := natToLE 4 n

/-- Embeds `Buffer.readUInt32LE(0)` on a buffer: read the first four bytes
little-endian. -/
def readUInt32LE (bs : List Nat) : Nat := fromLEBytes (bs.take 4)

/-- Embeds `Buffer.readUInt32BE(0)` on a buffer: read the first four bytes
big-endian. -/
def readUInt32BE (bs : List Nat) : Nat := fromBEBytes (bs.take 4)

/-- Byte content of an ASCII string literal (`Buffer.from(s)`); every string
the scripts hash or use as a seed is ASCII, where UTF-8 is the identity. -/
def strBytes (s : String) : List Nat := s.data.map Char.toNat

theorem natToLE_length (k n : Nat) : (natToLE k n).length = k := by
  induction k generalizing n with
  | zero => rfl
  | succ k ih => simp [natToLE, ih]

theorem fromLEBytes_natToLE (k n : Nat) :
    fromLEBytes (natToLE k n) = n % 256 ^ k := by
  induction k generalizing n with
  | zero => simp [natToLE, fromLEBytes, Nat.mod_one]
  | succ k ih =>
    have h1 : n / 256 % 256 ^ k = n % (256 * 256 ^ k) / 256 :=
      (Nat.mod_mul_right_div_self n 256 (256 ^ k)).symm
    have h2 : n % (256 * 256 ^ k) % 256 = n % 256 :=
      Nat.mod_mod_of_dvd n (Dvd.intro _ rfl)
    have h3 := Nat.div_add_mod (n % (256 * 256 ^ k)) 256
    have hp : (256 : Nat) ^ (k + 1) = 256 * 256 ^ k := by ring
    have hgoal : fromLEBytes (natToLE (k + 1) n)
        = n % 256 + 256 * fromLEBytes (natToLE k (n / 256)) := by
      simp [natToLE, fromLEBytes]
    rw [hgoal, ih, hp, h1]
    omega

/-- Decoding then re-encoding a valid little-endian byte list is the
identity: `natToLE` on the list's length inverts `fromLEBytes`. -/
theorem natToLE_fromLEBytes (bs : List Nat) (hb : ∀ b ∈ bs, b < 256) :
    natToLE bs.length (fromLEBytes bs) = bs := by
  induction bs with
  | nil => rfl
  | cons b rest ih =>
    have hblt : b < 256 := hb b (List.mem_cons_self b rest)
    have hrest : ∀ x ∈ rest, x < 256 := fun x hx => hb x (List.mem_cons_of_mem b hx)
    have hfold : fromLEBytes (b :: rest) = b + 256 * fromLEBytes rest := by
      simp [fromLEBytes]
    have hmod : (b + 256 * fromLEBytes rest) % 256 = b := by omega
    have hdiv : (b + 256 * fromLEBytes rest) / 256 = fromLEBytes rest := by omega
    simp only [List.length_cons, natToLE, hfold, hmod, hdiv, ih hrest]

theorem fromBEBytes_eq_fromLEBytes_reverse (bs : List Nat) :
    fromBEBytes bs = fromLEBytes bs.reverse := by
  induction bs using List.reverseRecOn with
  | nil => rfl
  | append_singleton rest b ih =>
    have hbe : fromBEBytes (rest ++ [b]) = fromBEBytes rest * 256 + b := by
      simp [fromBEBytes]
    have hle : fromLEBytes (b :: rest.reverse) = b + 256 * fromLEBytes rest.reverse := by
      simp [fromLEBytes]
    rw [hbe, List.reverse_append, List.reverse_singleton, List.singleton_append, hle, ih]
    ring

/-- Big-endian decoding is injective on byte lists of equal length: the map
from `k` raw bytes to the decoded number loses no entropy. -/
theorem fromBEBytes_injective (b1 b2 : List Nat) (hl : b1.length = b2.length)
    (hv1 : ∀ b ∈ b1, b < 256) (hv2 : ∀ b ∈ b2, b < 256)
    (h : fromBEBytes b1 = fromBEBytes b2) : b1 = b2 := by
  have hv1r : ∀ b ∈ b1.reverse, b < 256 := fun b hb => hv1 b (List.mem_reverse.mp hb)
  have hv2r : ∀ b ∈ b2.reverse, b < 256 := fun b hb => hv2 b (List.mem_reverse.mp hb)
  have h' : fromLEBytes b1.reverse = fromLEBytes b2.reverse := by
    rw [← fromBEBytes_eq_fromLEBytes_reverse, ← fromBEBytes_eq_fromLEBytes_reverse, h]
  have hlr : b1.reverse.length = b2.reverse.length := by
    simpa using hl
  have := natToLE_fromLEBytes b1.reverse hv1r
  rw [h', hlr, natToLE_fromLEBytes b2.reverse hv2r] at this
  have hrev : b1.reverse = b2.reverse := this.symm
  simpa using congrArg List.reverse hrev

/-!
## SHA-256

The scripts hash with Node's `crypto.createHash("sha256")`
(onchain/scripts/e2e-start-hand.js `anchorDiscriminator`,
onchain/scripts/call-arcium-init-mxe.js method tag), and the Arcium client's
`getCompDefAccOffset` derives a circuit's definition offset by hashing the
circuit name.  The full FIPS 180-4 SHA-256 is implemented here over byte
lists so those derivations are computed, not assumed.
-/

/-- Right rotation of a 32-bit word. -/
def rotr32 (k x : Nat) : Nat := w32 ((x >>> k) ||| (x <<< (32 - k)))

/-- Bitwise complement within 32 bits. -/
def not32 (x : Nat) : Nat := 4294967295 - x % 4294967296

/-- The 64 SHA-256 round constants. -/
def sha256K : List Nat := [
  1116352408, 1899447441, 3049323471, 3921009573, 961987163, 1508970993, 2453635748, 2870763221,
  3624381080, 310598401, 607225278, 1426881987, 1925078388, 2162078206, 2614888103, 3248222580,
  3835390401, 4022224774, 264347078, 604807628, 770255983, 1249150122, 1555081692, 1996064986,
  2554220882, 2821834349, 2952996808, 3210313671, 3336571891, 3584528711, 113926993, 338241895,
  666307205, 773529912, 1294757372, 1396182291, 1695183700, 1986661051, 2177026350, 2456956037,
  2730485921, 2820302411, 3259730800, 3345764771, 3516065817, 3600352804, 4094571909, 275423344,
  430227734, 506948616, 659060556, 883997877, 958139571, 1322822218, 1537002063, 1747873779,
  1955562222, 2024104815, 2227730452, 2361852424, 2428436474, 2756734187, 3204031479, 3329325298]

/-- The SHA-256 initial hash value. -/
def sha256H0 : List Nat :=
  [1779033703, 3144134277, 1013904242, 2773480762, 1359893119, 2600822924, 528734635, 1541459225]

/-- Message-schedule sigma-0. -/
def ssig0 (x : Nat) : Nat := (rotr32 7 x) ^^^ (rotr32 18 x) ^^^ (x >>> 3)

/-- Message-schedule sigma-1. -/
def ssig1 (x : Nat) : Nat := (rotr32 17 x) ^^^ (rotr32 19 x) ^^^ (x >>> 10)

/-- Compression big-sigma-0. -/
def bsig0 (x : Nat) : Nat := (rotr32 2 x) ^^^ (rotr32 13 x) ^^^ (rotr32 22 x)

/-- Compression big-sigma-1. -/
def bsig1 (x : Nat) : Nat := (rotr32 6 x) ^^^ (rotr32 11 x) ^^^ (rotr32 25 x)

/-- Group a byte list into big-endian 32-bit words. -/
def bytesToWordsBE : List Nat → List Nat
  | b0 :: b1 :: b2 :: b3 :: rest =>
    (((b0 * 256 + b1) * 256 + b2) * 256 + b3) :: bytesToWordsBE rest
  | _ => []

/-- Extend sixteen block words to the 64-entry message schedule.  The
accumulator holds the words most recent first. -/
def sha256Schedule (w16 : List Nat) : List Nat :=
  ((List.range 48).foldl
    (fun rev _ =>
      w32 (ssig1 (rev.getD 1 0) + rev.getD 6 0 + ssig0 (rev.getD 14 0) + rev.getD 15 0) :: rev)
    w16.reverse).reverse

/-- One working-variable state of the compression function. -/
structure Sha256State where
  a : Nat
  b : Nat
  c : Nat
  d : Nat
  e : Nat
  f : Nat
  g : Nat
  h : Nat
deriving DecidableEq

/-- One SHA-256 compression round. -/
def sha256Round (s : Sha256State) (kw : Nat × Nat) : Sha256State :=
  let t1 := w32 (s.h + bsig1 s.e + ((s.e &&& s.f) ^^^ (not32 s.e &&& s.g)) + kw.1 + kw.2)
  let t2 := w32 (bsig0 s.a + ((s.a &&& s.b) ^^^ (s.a &&& s.c) ^^^ (s.b &&& s.c)))
  ⟨w32 (t1 + t2), s.a, s.b, s.c, w32 (s.d + t1), s.e, s.f, s.g⟩

/-- Compress one 64-byte block into the running hash value. -/
def sha256Compress (hv : List Nat) (block : List Nat) : List Nat :=
  let ws := sha256Schedule (bytesToWordsBE block)
  let s0 : Sha256State :=
    ⟨hv.getD 0 0, hv.getD 1 0, hv.getD 2 0, hv.getD 3 0,
     hv.getD 4 0, hv.getD 5 0, hv.getD 6 0, hv.getD 7 0⟩
  let s := (sha256K.zip ws).foldl (fun st kw => sha256Round st (kw.1, kw.2)) s0
  [w32 (hv.getD 0 0 + s.a), w32 (hv.getD 1 0 + s.b), w32 (hv.getD 2 0 + s.c),
   w32 (hv.getD 3 0 + s.d), w32 (hv.getD 4 0 + s.e), w32 (hv.getD 5 0 + s.f),
   w32 (hv.getD 6 0 + s.g), w32 (hv.getD 7 0 + s.h)]

/-- FIPS 180-4 padding: a 0x80 byte, zeros to 56 mod 64, then the bit length
on eight big-endian bytes. -/
def sha256Pad (len : Nat) : List Nat :=
  128 :: List.replicate ((119 - len % 64) % 64) 0 ++ natToBE 8 (len * 8)

/-- Split a list into 64-byte blocks; the fuel argument bounds the number of
steps and is instantiated with the list length so it never runs out. -/
def chunks64Go : Nat → List Nat → List (List Nat)
  | _, [] => []
  | 0, _ :: _ => []
  | fuel + 1, x :: xs => (x :: xs).take 64 :: chunks64Go fuel ((x :: xs).drop 64)

/-- Split the padded message into 64-byte blocks. -/
def chunks64 (l : List Nat) : List (List Nat) := chunks64Go l.length l

/-- SHA-256 of a byte list, as Node `crypto.createHash("sha256")` computes
it. -/
def sha256 (msg : List Nat) : List Nat :=
  ((chunks64 (msg ++ sha256Pad msg.length)).foldl sha256Compress sha256H0).flatMap (natToBE 4)

set_option maxRecDepth 10000

example : sha256 (strBytes "abc") =
    [186, 120, 22, 191, 143, 1, 207, 234, 65, 65, 64, 222, 93, 174, 34, 35,
     176, 3, 97, 163, 150, 23, 122, 156, 180, 16, 255, 97, 242, 0, 21, 173] := by decide

example : sha256 [] =
    [227, 176, 196, 66, 152, 252, 28, 20, 154, 251, 244, 200, 153, 111, 185, 36,
     39, 174, 65, 228, 100, 155, 147, 76, 164, 149, 153, 27, 120, 82, 184, 85] := by decide

/-!
## The Address Resolver

Modelled from the spec: `PublicKey.findProgramAddressSync(seeds, programId)`
(the Solana SDK, outside this repository) maps a seed list and an owning
program identity to a program-derived address and a bump, by hashing the
seeds, the program id, a bump byte and a domain tag, and searching for the
first bump whose hash lands off the ed25519 curve.  The hash and the curve
predicate are outside a shallow embedding; the derivation is modelled as an
injective, length-prefixed transcript of its inputs — the standard
collision-resistance idealization — together with the canonical first bump
candidate.  Determinism and all seed-level distinctions are preserved
exactly; only hash collisions (cryptographically negligible) are abstracted
away. -/

/-- Length-prefixed flattening of a list of byte lists; injective, so the
transcript determines the seeds. -/
def encodeLL (l : List (List Nat)) : List Nat := l.flatMap (fun s => s.length :: s)

theorem encodeLL_injective :
    ∀ l1 l2 : List (List Nat), encodeLL l1 = encodeLL l2 → l1 = l2 := by
  intro l1
  induction l1 with
  | nil =>
    intro l2 h
    cases l2 with
    | nil => rfl
    | cons s2 t2 => simp [encodeLL] at h
  | cons s1 t1 ih =>
    intro l2 h
    cases l2 with
    | nil => simp [encodeLL] at h
    | cons s2 t2 =>
      simp only [encodeLL, List.flatMap_cons, List.cons_append, List.cons.injEq] at h
      obtain ⟨hlen, happ⟩ := h
      obtain ⟨hs, ht⟩ := List.append_inj happ hlen
      exact List.cons_eq_cons.mpr ⟨hs, ih t2 (by simpa [encodeLL] using ht)⟩

/-- The Address Resolver (`PublicKey.findProgramAddressSync`): returns the
derived address together with its bump. -/
def findProgramAddressSync (seeds : List (List Nat)) (programId : List Nat) :
    List Nat × Nat :=
  (encodeLL (programId :: seeds), 255)

/-- Two derivations agree only when both the owning program and the full seed
list agree: the symbolic resolver is collision-free by construction. -/
theorem findProgramAddressSync_injective
    (seeds1 seeds2 : List (List Nat)) (pid1 pid2 : List Nat)
    (h : (findProgramAddressSync seeds1 pid1).1 = (findProgramAddressSync seeds2 pid2).1) :
    pid1 = pid2 ∧ seeds1 = seeds2 := by
  have := encodeLL_injective _ _ h
  exact ⟨by injection this, by injection this⟩

/-!
## Arcium client account derivations

These functions live in the external `@arcium-hq/client` package; the
scripts under src only call them.  They are modelled from the spec
(§6: the circuit-definition base label plus a circuit-specific tag derived
from hashing the circuit name; computation nonces are little-endian when
embedded in derived addresses), with the cluster program identity held as a
fixed symbolic constant that no theorem depends on. -/

/-- Modelled from the spec: the compute cluster's own program identity, an
opaque deployment constant. -/
def getArciumProgAddress : List Nat := strBytes "ArciumProgramIdentity"

/-- Modelled from the spec: the stable base seed label of an Arcium-owned
account class. -/
def getArciumAccountBaseSeed (accountName : String) : List Nat := strBytes accountName

/-- Modelled from the spec: a circuit-specific tag derived from hashing the
circuit name — the first four bytes of its SHA-256 digest. -/
def getCompDefAccOffset (circuitName : String) : List Nat :=
  (sha256 (strBytes circuitName)).take 4

/-- Modelled from the spec: the computation-definition account address for a
numeric offset; the offset is embedded in the seeds as four little-endian
bytes. -/
def getCompDefAccAddress (programId : List Nat) (offset : Nat) : List Nat :=
  (findProgramAddressSync
    [getArciumAccountBaseSeed "ComputationDefinitionAccount", programId, toU32LE offset]
    getArciumProgAddress).1

/-- Modelled from the spec: the computation-instance account address for a
computation nonce; the nonce is embedded in the seeds as eight little-endian
bytes (spec §6). -/
def getComputationAccAddress (programId : List Nat) (offset : Nat) : List Nat :=
  (findProgramAddressSync
    [getArciumAccountBaseSeed "ComputationAccount", programId, toU64LE offset]
    getArciumProgAddress).1

theorem compDefOffset_shuffle :
    getCompDefAccOffset "shuffle_and_deal" = [32, 87, 132, 185] := by decide

theorem compDefOffset_reveal :
    getCompDefAccOffset "reveal_community_cards" = [139, 246, 182, 247] := by decide

theorem compDefOffset_evaluate :
    getCompDefAccOffset "evaluate_hands_and_payout" = [8, 114, 252, 14] := by decide

/-!
## Source embeddings: account seed layouts (onchain/scripts/e2e-start-hand.js)
-/

/-- Embeds the platform-config seeds of e2e-start-hand.js line 20:
`[Buffer.from("platform_config")]`. -/
def platformConfigSeeds : List (List Nat) := [strBytes "platform_config"]

/-- Embeds the table seeds of e2e-start-hand.js line 56:
`[Buffer.from("table"), toU64LE(tableId)]`. -/
def tableSeeds (tableId : Nat) : List (List Nat) := [strBytes "table", toU64LE tableId]

/-- Embeds the vault seeds of e2e-start-hand.js line 57:
`[Buffer.from("vault"), tablePda.toBuffer()]`. -/
def vaultSeeds (tableAddress : List Nat) : List (List Nat) :=
  [strBytes "vault", tableAddress]

/-- Embeds the hand-data seeds of e2e-start-hand.js line 155:
`[Buffer.from("hand"), tablePda.toBuffer(), toU64LE(handDataSeedCounter)]`. -/
def handSeeds (tableAddress : List Nat) (handCounter : Nat) : List (List Nat) :=
  [strBytes "hand", tableAddress, toU64LE handCounter]

/-- The platform-config account address (e2e-start-hand.js line 20). -/
def platformConfigPda (programId : List Nat) : List Nat :=
  (findProgramAddressSync platformConfigSeeds programId).1

/-- The table account address (e2e-start-hand.js line 56). -/
def tablePda (programId : List Nat) (tableId : Nat) : List Nat :=
  (findProgramAddressSync (tableSeeds tableId) programId).1

/-- The table-vault account address (e2e-start-hand.js line 57). -/
def tableVaultPda (programId tableAddress : List Nat) : List Nat :=
  (findProgramAddressSync (vaultSeeds tableAddress) programId).1

/-- The hand-data account address (e2e-start-hand.js line 155). -/
def handDataPda (programId tableAddress : List Nat) (handCounter : Nat) : List Nat :=
  (findProgramAddressSync (handSeeds tableAddress handCounter) programId).1

/-- The seed layout the spec fixes for the table account, written from the
spec's words (claim C5: the literal "table" followed by the 8-byte
little-endian table id) for comparison with the source derivation. -/
def specTableSeeds (tableId : Nat) : List (List Nat) :=
  [strBytes "table", natToLE 8 tableId]

/-- The seed layout the spec fixes for the platform config: the literal
"platform_config" alone. -/
def specPlatformConfigSeeds : List (List Nat) := [strBytes "platform_config"]

/-- The seed layout the spec fixes for the vault: the literal "vault"
followed by the table address. -/
def specVaultSeeds (tableAddress : List Nat) : List (List Nat) :=
  [strBytes "vault", tableAddress]

/-- The seed layout the spec fixes for the hand record: the literal "hand"
followed by the table address and the 8-byte little-endian hand counter. -/
def specHandSeeds (tableAddress : List Nat) (handCounter : Nat) : List (List Nat) :=
  [strBytes "hand", tableAddress, natToLE 8 handCounter]

/-!
## Source embeddings: computation-definition bootstrap
(onchain/scripts/manual-init-comp-defs.js, onchain/scripts/init-computation-defs.js)
-/

/-- Embeds the circuit list of manual-init-comp-defs.js lines 28-32. -/
def circuits : List String :=
  ["shuffle_and_deal", "reveal_community_cards", "evaluate_hands_and_payout"]

/-- Embeds the computation-definition PDA of manual-init-comp-defs.js
lines 46-52: seeds are the ComputationDefinitionAccount base seed, the
owning program id, and the circuit's offset bytes, derived under the Arcium
program. -/
def compDefPDA (programId : List Nat) (circuitName : String) : List Nat :=
  (findProgramAddressSync
    [getArciumAccountBaseSeed "ComputationDefinitionAccount", programId,
     getCompDefAccOffset circuitName]
    getArciumProgAddress).1

/-- Registry state visible on-chain: the circuit names whose
computation-definition account currently exists. -/
structure ChainState where
  compDefs : List String
deriving DecidableEq

/-- Whether the definition account for a circuit exists in a chain state. -/
def ChainState.hasDef (s : ChainState) (circuit : String) : Bool :=
  s.compDefs.contains circuit

/-- One observable chain interaction of the bootstrap helper. -/
inductive BootstrapEvent where
  | existenceCheck (circuit : String) (found : Bool)
  | submitInit (circuit : String) (succeeded : Bool)
deriving DecidableEq

/-- How one `initCompDef` call ends: short-circuit on the existing account,
a successful initialization, or the rethrown submission error. -/
inductive InitCompDefResult where
  | alreadyInitialized
  | initialized
  | errorRaised
deriving DecidableEq

/-- Both the short-circuit and the fresh initialization report success to
the caller; only the rethrown error does not. -/
def InitCompDefResult.isSuccess : InitCompDefResult → Bool
  | .alreadyInitialized => true
  | .initialized => true
  | .errorRaised => false

/-- The full observable record of one `initCompDef` call. -/
structure InitCompDefRun where
  result : InitCompDefResult
  events : List BootstrapEvent
  chainAfter : ChainState
deriving DecidableEq

/-- Embeds `initCompDef` of manual-init-comp-defs.js lines 42-86.  The call
makes two chain interactions — the pre-submission existence fetch and the
init transaction — which observe the chain at two instants, `checkState`
and `submitState`, so a concurrent writer landing between them is
expressible.  The receiving program accepts an initialization exactly when
the definition account does not exist at submission time; on a failed
submission the catch block logs and rethrows (lines 82-85) without any
further chain read. -/
def initCompDef (circuit : String) (checkState submitState : ChainState) :
    InitCompDefRun :=
  if checkState.hasDef circuit then
    { result := .alreadyInitialized
      events := [.existenceCheck circuit true]
      chainAfter := submitState }
  else if submitState.hasDef circuit then
    { result := .errorRaised
      events := [.existenceCheck circuit false, .submitInit circuit false]
      chainAfter := submitState }
  else
    { result := .initialized
      events := [.existenceCheck circuit false, .submitInit circuit true]
      chainAfter := ⟨circuit :: submitState.compDefs⟩ }

/-- Number of on-chain initialization submissions in an event trace. -/
def submitCount (events : List BootstrapEvent) : Nat :=
  (events.filter fun e =>
    match e with
    | .submitInit _ _ => true
    | _ => false).length

/-- Number of existence checks occurring strictly after a submission in an
event trace. -/
def checksAfterSubmit : List BootstrapEvent → Nat
  | [] => 0
  | .submitInit _ _ :: rest =>
    (rest.filter fun e =>
      match e with
      | .existenceCheck _ _ => true
      | _ => false).length + checksAfterSubmit rest
  | _ :: rest => checksAfterSubmit rest

/-!
## Source embeddings: start-hand computation issuance
(onchain/scripts/e2e-start-hand.js)
-/

/-- Embeds `new anchor.BN(Buffer.from(cryptoRandomBytes(8)))` of
e2e-start-hand.js line 132: a BN constructed from a byte buffer reads the
bytes big-endian, so the computation offset is the big-endian value of the
eight caller-generated random bytes. -/
def computationOffsetOfEntropy (entropy : List Nat) : Nat := fromBEBytes entropy

/-- Embeds the comp-def probe of e2e-start-hand.js lines 138-148: read the
four offset bytes big-endian, derive the definition address, keep it when
that account exists on-chain, and otherwise re-derive from the little-endian
reading.  The chain read is an oracle from addresses to existence (a thrown
or null `getAccountInfo` both leave `existing` unset). -/
def probeShuffleCompDefPda (existsOnChain : List Nat → Bool) (programId : List Nat) :
    List Nat :=
  let compDefOffsetBytes := getCompDefAccOffset "shuffle_and_deal"
  let compDefOffsetU32BE := readUInt32BE compDefOffsetBytes
  let compDefOffsetU32LE := readUInt32LE compDefOffsetBytes
  let pdaBE := getCompDefAccAddress programId compDefOffsetU32BE
  if existsOnChain pdaBE then pdaBE
  else getCompDefAccAddress programId compDefOffsetU32LE

/-!
## Source embeddings: init_mxe instruction payload
(onchain/scripts/call-arcium-init-mxe.js, manual-init-mxe section)
-/

/-- The mempool-size enumeration; manual-init-mxe.js line 123 documents the
discriminants: Tiny=0, Small=1, Medium=2, Large=3. -/
inductive MempoolSize where
  | tiny
  | small
  | medium
  | large
deriving DecidableEq

/-- The single discriminant byte of a mempool-size value. -/
def MempoolSize.discriminant : MempoolSize → Nat
  | .tiny => 0
  | .small => 1
  | .medium => 2
  | .large => 3

/-- Embeds the Anchor method tag of manual-init-mxe.js line 120:
the first eight bytes of the SHA-256 digest of the namespaced method
identifier. -/
def anchorMethodTag (namespacedName : String) : List Nat :=
  (sha256 (strBytes namespacedName)).take 8

/-- Embeds the payload construction of manual-init-mxe.js lines 119-126:
`Buffer.concat([disc, clusterBuf, mempoolBuf])` with `disc` the method tag
of "global:init_mxe", `clusterBuf` the 4-byte little-endian cluster offset
and `mempoolBuf` the single discriminant byte. -/
def initMxeData (clusterOffset : Nat) (mempoolSize : MempoolSize) : List Nat :=
  anchorMethodTag "global:init_mxe" ++ toU32LE clusterOffset ++ [mempoolSize.discriminant]

/-!
## Source embeddings: snake-case to PascalCase dispatch
(onchain/scripts/initialize-devnet.ts)
-/

/-- The JavaScript regex word-character class, restricted to ASCII as every
circuit name is. -/
def isWordChar (c : Char) : Bool :=
  (Nat.ble 97 c.toNat && Nat.ble c.toNat 122) || (Nat.ble 65 c.toNat && Nat.ble c.toNat 90) ||
  (Nat.ble 48 c.toNat && Nat.ble c.toNat 57) || c == '_'

/-- ASCII uppercasing, the effect of JavaScript `toUpperCase` on the ASCII
characters the circuit names contain. -/
def jsToUpper (c : Char) : Char :=
  if Nat.ble 97 c.toNat && Nat.ble c.toNat 122 then Char.ofNat (c.toNat - 32) else c

/-- Embeds the first replace of toPascalCase (initialize-devnet.ts line 117):
the global regex replace of each underscore-followed-by-word-character pair
by the uppercased character, scanning left to right without overlap. -/
def replaceUnderscorePairs : List Char → List Char
  | [] => []
  | [c] => [c]
  | c1 :: c2 :: rest =>
    if c1 == '_' && isWordChar c2 then jsToUpper c2 :: replaceUnderscorePairs rest
    else c1 :: replaceUnderscorePairs (c2 :: rest)

/-- Embeds the second replace of toPascalCase: uppercase a leading word
character. -/
def upperFirstWordChar : List Char → List Char
  | [] => []
  | c :: rest => if isWordChar c then jsToUpper c :: rest else c :: rest

/-- Embeds `toPascalCase` of initialize-devnet.ts lines 116-118. -/
def toPascalCase (s : String) : String :=
  ⟨upperFirstWordChar (replaceUnderscorePairs s.data)⟩

/-- Embeds the dynamic method-name construction of initialize-devnet.ts
line 90: the string interpolation of "init", the PascalCase circuit name and
"CompDef". -/
def initCompDefMethodName (circuitName : String) : String :=
  "init" ++ toPascalCase circuitName ++ "CompDef"

/-!
## Source embeddings: bounded retry loops
(onchain/scripts/e2e-start-hand.js getAccountInfoWithRetry,
onchain/tests/aces-unknown.ts getMXEPublicKeyWithRetry)
-/

/-- What one getAccountInfoWithRetry call returns: a completed read (the
account info, or none for a missing account), a rethrown error, or the
JavaScript `undefined` a zero-iteration loop falls through to. -/
inductive FetchOutcome (α : Type) where
  | value : Option α → FetchOutcome α
  | thrown : String → FetchOutcome α
  | undefinedResult : FetchOutcome α
deriving DecidableEq

/-- The observable record of one retry run: attempts made, fixed-delay
pauses taken, and the outcome. -/
structure RetryRun (α : Type) where
  attempts : Nat
  sleeps : Nat
  outcome : FetchOutcome α
deriving DecidableEq

/-- Embeds the loop body of getAccountInfoWithRetry (e2e-start-hand.js
lines 226-236).  The oracle gives each attempt's RPC result: a completed
read or a thrown error.  The JS loop runs attempt = 1..maxRetries,
returning on the first completed read, rethrowing the error of the final
attempt, and sleeping a fixed delay between attempts. -/
def retryLoop (oracle : Nat → Except String (Option α)) (attempt : Nat) :
    Nat → RetryRun α
  | 0 => ⟨0, 0, .undefinedResult⟩
  | remaining + 1 =>
    match oracle attempt with
    | .ok info => ⟨1, 0, .value info⟩
    | .error e =>
      if remaining = 0 then ⟨1, 0, .thrown e⟩
      else
        let r := retryLoop oracle (attempt + 1) remaining
        ⟨r.attempts + 1, r.sleeps + 1, r.outcome⟩

/-- Embeds getAccountInfoWithRetry of e2e-start-hand.js lines 226-236. -/
def getAccountInfoWithRetry (oracle : Nat → Except String (Option α))
    (maxRetries : Nat) : RetryRun α :=
  retryLoop oracle 1 maxRetries

/-- What one getMXEPublicKeyWithRetry call returns: the key, or the
terminal error naming the exhausted attempt budget. -/
inductive MxeFetchOutcome (κ : Type) where
  | found : κ → MxeFetchOutcome κ
  | notFoundError : Nat → MxeFetchOutcome κ
deriving DecidableEq

/-- The observable record of one getMXEPublicKeyWithRetry run. -/
structure MxeRetryRun (κ : Type) where
  attempts : Nat
  sleeps : Nat
  outcome : MxeFetchOutcome κ
deriving DecidableEq

/-- Embeds the loop of getMXEPublicKeyWithRetry (onchain/tests/aces-unknown.ts
lines 351-373).  The oracle gives each attempt's result: the key when the
fetch returns one, none when it returns nothing or throws (the catch block
suppresses errors).  After the loop, the helper throws the terminal
failed-after-N-attempts error. -/
def mxeRetryLoop (oracle : Nat → Option κ) (maxRetries attempt : Nat) :
    Nat → MxeRetryRun κ
  | 0 => ⟨0, 0, .notFoundError maxRetries⟩
  | remaining + 1 =>
    match oracle attempt with
    | some key => ⟨1, 0, .found key⟩
    | none =>
      if remaining = 0 then ⟨1, 0, .notFoundError maxRetries⟩
      else
        let r := mxeRetryLoop oracle maxRetries (attempt + 1) remaining
        ⟨r.attempts + 1, r.sleeps + 1, r.outcome⟩

/-- Embeds getMXEPublicKeyWithRetry of onchain/tests/aces-unknown.ts
lines 351-373. -/
def getMXEPublicKeyWithRetry (oracle : Nat → Option κ) (maxRetries : Nat) :
    MxeRetryRun κ :=
  mxeRetryLoop oracle maxRetries 1 maxRetries

/-- A constant always-failing read oracle: the RPC endpoint is unreachable
at every attempt. -/
def alwaysThrowOracle : Nat → Except String (Option Nat) :=
  fun _ => Except.error "fetch failed"

/-- A read oracle that never yields an MXE public key. -/
def neverKeyOracle : Nat → Option Nat := fun _ => none

/-!
## Supporting lemmas
-/

theorem fromLEBytes_lt (bs : List Nat) (hb : ∀ b ∈ bs, b < 256) :
    fromLEBytes bs < 256 ^ bs.length := by
  induction bs with
  | nil => simp [fromLEBytes]
  | cons b rest ih =>
    have hblt : b < 256 := hb b (List.mem_cons_self b rest)
    have hrest : ∀ x ∈ rest, x < 256 := fun x hx => hb x (List.mem_cons_of_mem b hx)
    have htail := ih hrest
    have hfold : fromLEBytes (b :: rest) = b + 256 * fromLEBytes rest := by
      simp [fromLEBytes]
    have hpow : (256 : Nat) ^ (b :: rest).length = 256 * 256 ^ rest.length := by
      simp [List.length_cons]; ring
    rw [hfold, hpow]
    omega

/-!
## Claim theorems
-/

/-- C9: `toU64LE` round-trips with little-endian decoding — for every
nonnegative integer below 2^64 it returns exactly eight bytes, and reading
those bytes back as a little-endian unsigned 64-bit integer yields the
integer again. -/
theorem toU64LE_roundtrip (n : Nat) (h : n < 2 ^ 64) :
    (toU64LE n).length = 8 ∧ fromLEBytes (toU64LE n) = n := by
  refine ⟨natToLE_length 8 n, ?_⟩
  rw [toU64LE, fromLEBytes_natToLE]
  have h8 : (256 : Nat) ^ 8 = 2 ^ 64 := by norm_num
  rw [h8]
  exact Nat.mod_eq_of_lt h

/-- Witness for C9 at the concrete value 123456789. -/
theorem toU64LE_roundtrip_witness :
    123456789 < 2 ^ 64 ∧
      ((toU64LE 123456789).length = 8 ∧ fromLEBytes (toU64LE 123456789) = 123456789) :=
  ⟨by decide, toU64LE_roundtrip 123456789 (by decide)⟩

/-- C6: the init_mxe payload is the 8-byte method tag — the first eight
bytes of the SHA-256 digest of the namespaced identifier "global:init_mxe"
— followed by the cluster offset as four little-endian bytes (recoverable
by a little-endian read) and the pool-size enumeration as one discriminant
byte, 13 bytes in total. -/
theorem initMxe_payload_encoding (clusterOffset : Nat) (ms : MempoolSize)
    (h : clusterOffset < 2 ^ 32) :
    initMxeData clusterOffset ms =
      anchorMethodTag "global:init_mxe" ++ toU32LE clusterOffset ++ [ms.discriminant] ∧
    anchorMethodTag "global:init_mxe" = (sha256 (strBytes "global:init_mxe")).take 8 ∧
    (anchorMethodTag "global:init_mxe").length = 8 ∧
    (toU32LE clusterOffset).length = 4 ∧
    fromLEBytes (toU32LE clusterOffset) = clusterOffset ∧
    ms.discriminant < 256 ∧
    (initMxeData clusterOffset ms).length = 13 := by
  have hlen4 : (toU32LE clusterOffset).length = 4 := natToLE_length 4 clusterOffset
  have hrt : fromLEBytes (toU32LE clusterOffset) = clusterOffset := by
    rw [toU32LE, fromLEBytes_natToLE]
    have h4 : (256 : Nat) ^ 4 = 2 ^ 32 := by norm_num
    rw [h4]
    exact Nat.mod_eq_of_lt h
  have htag : (anchorMethodTag "global:init_mxe").length = 8 := by decide
  refine ⟨rfl, rfl, htag, hlen4, hrt, ?_, ?_⟩
  · cases ms <;> decide
  · simp [initMxeData, List.length_append, htag, hlen4]

/-- Witness for C6 at the deployment cluster offset 1116522165 and the Tiny
pool size. -/
theorem initMxe_payload_encoding_witness :
    1116522165 < 2 ^ 32 ∧
      (initMxeData 1116522165 MempoolSize.tiny =
        anchorMethodTag "global:init_mxe" ++ toU32LE 1116522165 ++
          [MempoolSize.tiny.discriminant] ∧
      anchorMethodTag "global:init_mxe" = (sha256 (strBytes "global:init_mxe")).take 8 ∧
      (anchorMethodTag "global:init_mxe").length = 8 ∧
      (toU32LE 1116522165).length = 4 ∧
      fromLEBytes (toU32LE 1116522165) = 1116522165 ∧
      MempoolSize.tiny.discriminant < 256 ∧
      (initMxeData 1116522165 MempoolSize.tiny).length = 13) :=
  ⟨by decide, initMxe_payload_encoding 1116522165 MempoolSize.tiny (by decide)⟩

/-- C7: the orchestrator probes between the two byte-order interpretations
of the circuit-definition offset: it derives the address from the
big-endian reading of the four offset bytes, keeps it exactly when that
account exists on-chain, and otherwise falls back to the address derived
from the little-endian reading; the two interpretations give genuinely
different addresses. -/
theorem compDefProbe_be_first_le_fallback
    (existsOnChain : List Nat → Bool) (programId : List Nat) :
    probeShuffleCompDefPda existsOnChain programId =
      (if existsOnChain (getCompDefAccAddress programId
            (readUInt32BE (getCompDefAccOffset "shuffle_and_deal")))
       then getCompDefAccAddress programId
            (readUInt32BE (getCompDefAccOffset "shuffle_and_deal"))
       else getCompDefAccAddress programId
            (readUInt32LE (getCompDefAccOffset "shuffle_and_deal"))) ∧
    getCompDefAccAddress programId (readUInt32BE (getCompDefAccOffset "shuffle_and_deal")) ≠
      getCompDefAccAddress programId (readUInt32LE (getCompDefAccOffset "shuffle_and_deal")) := by
  refine ⟨rfl, ?_⟩
  intro h
  have hinj := (findProgramAddressSync_injective _ _ _ _ h).2
  simp only [List.cons.injEq] at hinj
  have hoff := hinj.2.2.1
  rw [compDefOffset_shuffle] at hoff
  exact absurd hoff (by decide)

/-- C3 evaluated at the failing input: the definition is absent at the
pre-check but created by a concurrent bootstrap before the submission, so
the submission fails; the call rethrows the failure and performs no
existence re-check after the submission — it relies solely on the
pre-submission check, against the spec's re-check-after-failure
requirement. -/
theorem initCompDef_no_recheck_after_failed_submit :
    (initCompDef "shuffle_and_deal" ⟨[]⟩ ⟨["shuffle_and_deal"]⟩).result =
        InitCompDefResult.errorRaised ∧
    (initCompDef "shuffle_and_deal" ⟨[]⟩ ⟨["shuffle_and_deal"]⟩).events =
        [BootstrapEvent.existenceCheck "shuffle_and_deal" false,
         BootstrapEvent.submitInit "shuffle_and_deal" false] ∧
    checksAfterSubmit
        (initCompDef "shuffle_and_deal" ⟨[]⟩ ⟨["shuffle_and_deal"]⟩).events = 0 := by
  decide

/-- C2: the bootstrap is idempotent — for every circuit and every starting
registry state, two sequential calls submit at most one on-chain
initialization, the second call observes the existing definition and
submits nothing, and both calls report success. -/
theorem ensureDefinition_idempotent (circuit : String) (s : ChainState) :
    (initCompDef circuit s s).result.isSuccess = true ∧
    (initCompDef circuit (initCompDef circuit s s).chainAfter
        (initCompDef circuit s s).chainAfter).result.isSuccess = true ∧
    submitCount (initCompDef circuit s s).events +
      submitCount (initCompDef circuit (initCompDef circuit s s).chainAfter
        (initCompDef circuit s s).chainAfter).events ≤ 1 ∧
    submitCount (initCompDef circuit (initCompDef circuit s s).chainAfter
        (initCompDef circuit s s).chainAfter).events = 0 := by
  by_cases h : s.hasDef circuit
  · simp [initCompDef, h, submitCount, InitCompDefResult.isSuccess]
  · have h2 : (ChainState.mk (circuit :: s.compDefs)).hasDef circuit = true := by
      simp [ChainState.hasDef]
    simp [initCompDef, h, h2, submitCount, InitCompDefResult.isSuccess]

/-- C1: the Address Resolver is deterministic — identical seed list and
owning-program inputs always give the identical (address, bump) pair — and
collision-free across the program's circuit names: any two distinct
circuits derive different computation-definition addresses. -/
theorem addressResolver_deterministic_and_collision_free
    (seeds1 seeds2 : List (List Nat)) (pid1 pid2 programId : List Nat)
    (c1 c2 : String)
    (hseeds : seeds1 = seeds2) (hpid : pid1 = pid2)
    (hc1 : c1 ∈ circuits) (hc2 : c2 ∈ circuits) (hne : c1 ≠ c2) :
    findProgramAddressSync seeds1 pid1 = findProgramAddressSync seeds2 pid2 ∧
    compDefPDA programId c1 ≠ compDefPDA programId c2 := by
  constructor
  · rw [hseeds, hpid]
  · intro h
    simp only [compDefPDA] at h
    have hinj := (findProgramAddressSync_injective _ _ _ _ h).2
    simp only [List.cons.injEq] at hinj
    have hoff := hinj.2.2.1
    fin_cases hc1 <;> fin_cases hc2 <;>
      first
        | exact hne rfl
        | (simp only [compDefOffset_shuffle, compDefOffset_reveal,
             compDefOffset_evaluate] at hoff
           exact absurd hoff (by decide))

/-- Witness for C1 at two concrete circuits and a concrete program id. -/
theorem addressResolver_witness :
    platformConfigSeeds = platformConfigSeeds ∧ ([1, 2, 3] : List Nat) = [1, 2, 3] ∧
    ("shuffle_and_deal" : String) ∈ circuits ∧
    ("reveal_community_cards" : String) ∈ circuits ∧
    ("shuffle_and_deal" : String) ≠ "reveal_community_cards" ∧
    (findProgramAddressSync platformConfigSeeds [1, 2, 3] =
        findProgramAddressSync platformConfigSeeds [1, 2, 3] ∧
      compDefPDA [1, 2, 3] "shuffle_and_deal" ≠ compDefPDA [1, 2, 3] "reveal_community_cards") :=
  ⟨rfl, rfl, by decide, by decide, by decide,
    addressResolver_deterministic_and_collision_free
      platformConfigSeeds platformConfigSeeds [1, 2, 3] [1, 2, 3] [1, 2, 3]
      "shuffle_and_deal" "reveal_community_cards" rfl rfl
      (by decide) (by decide) (by decide)⟩

/-- C4: the computation nonce is built from exactly eight caller-generated
random bytes: the resulting offset is below 2^64, the byte-to-offset map is
injective (all 64 bits of entropy are preserved), and the nonce is embedded
little-endian in the computation-account derivation — the embedded seed is
the 8-byte little-endian encoding of the offset (the reversal of the
big-endian-read random buffer), which a little-endian read decodes back to
the offset. -/
theorem computationNonce_eight_random_bytes_le_embedded
    (entropy programId : List Nat)
    (hlen : entropy.length = 8) (hval : ∀ b ∈ entropy, b < 256) :
    computationOffsetOfEntropy entropy < 2 ^ 64 ∧
    getComputationAccAddress programId (computationOffsetOfEntropy entropy) =
      (findProgramAddressSync
        [getArciumAccountBaseSeed "ComputationAccount", programId,
         toU64LE (computationOffsetOfEntropy entropy)] getArciumProgAddress).1 ∧
    (toU64LE (computationOffsetOfEntropy entropy)).length = 8 ∧
    fromLEBytes (toU64LE (computationOffsetOfEntropy entropy)) =
      computationOffsetOfEntropy entropy ∧
    toU64LE (computationOffsetOfEntropy entropy) = entropy.reverse ∧
    (∀ entropy2 : List Nat, entropy2.length = 8 → (∀ b ∈ entropy2, b < 256) →
      computationOffsetOfEntropy entropy = computationOffsetOfEntropy entropy2 →
      entropy = entropy2) := by
  have hvalr : ∀ b ∈ entropy.reverse, b < 256 := fun b hb => hval b (List.mem_reverse.mp hb)
  have hlenr : entropy.reverse.length = 8 := by simpa using hlen
  have hbe : computationOffsetOfEntropy entropy = fromLEBytes entropy.reverse := by
    rw [computationOffsetOfEntropy, fromBEBytes_eq_fromLEBytes_reverse]
  have hlt : computationOffsetOfEntropy entropy < 2 ^ 64 := by
    rw [hbe]
    have := fromLEBytes_lt entropy.reverse hvalr
    rw [hlenr] at this
    exact lt_of_lt_of_le this (by norm_num)
  have hcanon : toU64LE (computationOffsetOfEntropy entropy) = entropy.reverse := by
    rw [hbe, toU64LE, ← hlenr, natToLE_fromLEBytes entropy.reverse hvalr]
  refine ⟨hlt, rfl, natToLE_length 8 _, ?_, hcanon, ?_⟩
  · rw [toU64LE, fromLEBytes_natToLE]
    have h8 : (256 : Nat) ^ 8 = 2 ^ 64 := by norm_num
    rw [h8]
    exact Nat.mod_eq_of_lt hlt
  · intro entropy2 hlen2 hval2 heq
    exact fromBEBytes_injective entropy entropy2 (by rw [hlen, hlen2]) hval hval2 heq

/-- Witness for C4 at a concrete eight-byte entropy buffer. -/
theorem computationNonce_witness :
    ([17, 34, 51, 68, 85, 102, 119, 136] : List Nat).length = 8 ∧
    (∀ b ∈ ([17, 34, 51, 68, 85, 102, 119, 136] : List Nat), b < 256) ∧
    (computationOffsetOfEntropy [17, 34, 51, 68, 85, 102, 119, 136] < 2 ^ 64 ∧
    getComputationAccAddress [7] (computationOffsetOfEntropy [17, 34, 51, 68, 85, 102, 119, 136]) =
      (findProgramAddressSync
        [getArciumAccountBaseSeed "ComputationAccount", [7],
         toU64LE (computationOffsetOfEntropy [17, 34, 51, 68, 85, 102, 119, 136])]
        getArciumProgAddress).1 ∧
    (toU64LE (computationOffsetOfEntropy [17, 34, 51, 68, 85, 102, 119, 136])).length = 8 ∧
    fromLEBytes (toU64LE (computationOffsetOfEntropy [17, 34, 51, 68, 85, 102, 119, 136])) =
      computationOffsetOfEntropy [17, 34, 51, 68, 85, 102, 119, 136] ∧
    toU64LE (computationOffsetOfEntropy [17, 34, 51, 68, 85, 102, 119, 136]) =
      ([17, 34, 51, 68, 85, 102, 119, 136] : List Nat).reverse ∧
    (∀ entropy2 : List Nat, entropy2.length = 8 → (∀ b ∈ entropy2, b < 256) →
      computationOffsetOfEntropy [17, 34, 51, 68, 85, 102, 119, 136] =
        computationOffsetOfEntropy entropy2 →
      [17, 34, 51, 68, 85, 102, 119, 136] = entropy2)) :=
  ⟨by decide, by decide,
    computationNonce_eight_random_bytes_le_embedded
      [17, 34, 51, 68, 85, 102, 119, 136] [7] (by decide) (by decide)⟩

/-- C5: the account classes use exactly the stable seed labels the spec
fixes — "platform_config" alone, "table" with the 8-byte little-endian
table id, "vault" with the table address, "hand" with the table address and
the 8-byte little-endian hand counter — and for every table id, table
address, hand counter and program the four derived addresses are pairwise
distinct. -/
theorem seedLabels_match_spec_and_distinct
    (programId tableAddress : List Nat) (tableId handCounter : Nat) :
    platformConfigSeeds = specPlatformConfigSeeds ∧
    tableSeeds tableId = specTableSeeds tableId ∧
    vaultSeeds tableAddress = specVaultSeeds tableAddress ∧
    handSeeds tableAddress handCounter = specHandSeeds tableAddress handCounter ∧
    platformConfigPda programId ≠ tablePda programId tableId ∧
    platformConfigPda programId ≠ tableVaultPda programId tableAddress ∧
    platformConfigPda programId ≠ handDataPda programId tableAddress handCounter ∧
    tablePda programId tableId ≠ tableVaultPda programId tableAddress ∧
    tablePda programId tableId ≠ handDataPda programId tableAddress handCounter ∧
    tableVaultPda programId tableAddress ≠ handDataPda programId tableAddress handCounter := by
  refine ⟨rfl, rfl, rfl, rfl, ?_, ?_, ?_, ?_, ?_, ?_⟩ <;>
    · intro h
      have hinj := (findProgramAddressSync_injective _ _ _ _ h).2
      simp only [platformConfigSeeds, tableSeeds, vaultSeeds, handSeeds,
        List.cons.injEq] at hinj
      exact absurd hinj.1 (by decide)

theorem retryLoop_attempts_le (oracle : Nat → Except String (Option α)) :
    ∀ remaining attempt, (retryLoop oracle attempt remaining).attempts ≤ remaining := by
  intro remaining
  induction remaining with
  | zero => intro attempt; simp [retryLoop]
  | succ r ih =>
    intro attempt
    have hin := ih (attempt + 1)
    simp only [retryLoop]
    split
    · simp
    · split
      · simp
      · simpa using Nat.succ_le_succ hin

theorem retryLoop_sleeps_le (oracle : Nat → Except String (Option α)) :
    ∀ remaining attempt, (retryLoop oracle attempt remaining).sleeps ≤ remaining - 1 := by
  intro remaining
  induction remaining with
  | zero => intro attempt; simp [retryLoop]
  | succ r ih =>
    intro attempt
    have hin := ih (attempt + 1)
    simp only [retryLoop]
    split
    · simp
    · split
      · simp
      · rename_i hr
        simp only [Nat.add_sub_cancel]
        omega

theorem retryLoop_all_error (oracle : Nat → Except String (Option α))
    (herr : ∀ i, ∃ e, oracle i = Except.error e) :
    ∀ remaining attempt, 1 ≤ remaining →
      (∃ e, (retryLoop oracle attempt remaining).outcome = FetchOutcome.thrown e) ∧
      (retryLoop oracle attempt remaining).attempts = remaining := by
  intro remaining
  induction remaining with
  | zero => intro attempt h; exact absurd h (by omega)
  | succ r ih =>
    intro attempt _
    obtain ⟨e, he⟩ := herr attempt
    simp only [retryLoop, he]
    by_cases hr : r = 0
    · subst hr
      exact ⟨⟨e, rfl⟩, rfl⟩
    · have hin := ih (attempt + 1) (by omega)
      simp only [hr, if_false]
      obtain ⟨⟨e2, he2⟩, hatt⟩ := hin
      exact ⟨⟨e2, he2⟩, by simpa using hatt⟩

theorem mxeRetryLoop_attempts_le (oracle : Nat → Option κ) (maxRetries : Nat) :
    ∀ remaining attempt,
      (mxeRetryLoop oracle maxRetries attempt remaining).attempts ≤ remaining := by
  intro remaining
  induction remaining with
  | zero => intro attempt; simp [mxeRetryLoop]
  | succ r ih =>
    intro attempt
    have hin := ih (attempt + 1)
    simp only [mxeRetryLoop]
    split
    · simp
    · split
      · simp
      · simpa using Nat.succ_le_succ hin

theorem mxeRetryLoop_all_none (oracle : Nat → Option κ)
    (hnone : ∀ i, oracle i = none) (maxRetries : Nat) :
    ∀ remaining attempt,
      (mxeRetryLoop oracle maxRetries attempt remaining).outcome =
        MxeFetchOutcome.notFoundError maxRetries := by
  intro remaining
  induction remaining with
  | zero => intro attempt; simp [mxeRetryLoop]
  | succ r ih =>
    intro attempt
    simp only [mxeRetryLoop, hnone attempt]
    by_cases hr : r = 0
    · subst hr; rfl
    · simp only [hr, if_false]
      exact ih (attempt + 1)

/-- C8 counterexample: with a zero retry budget the loop body of
getAccountInfoWithRetry never runs, so an exhausted budget terminates by
falling off the loop and returning JavaScript undefined — zero attempts, no
completed read, and no error of any kind to the caller. -/
theorem retryBudgetZero_returns_undefined :
    getAccountInfoWithRetry alwaysThrowOracle 0 =
      RetryRun.mk 0 0 FetchOutcome.undefinedResult := by
  decide

/-- C8 (amended to budgets of at least one attempt): the retry loops are
bounded — getAccountInfoWithRetry makes at most maxRetries attempts with at
most maxRetries - 1 fixed pauses between them and, when every attempt
fails, ends after exactly maxRetries attempts by propagating a terminal
error; getMXEPublicKeyWithRetry makes at most maxRetries attempts and, when
no attempt yields the key, terminates with the NotFound-style
failed-after-maxRetries error.  Neither loop can run forever. -/
theorem boundedRetry_terminal_error (oracleA : Nat → Except String (Option α))
    (oracleK : Nat → Option κ) (maxRetries : Nat) (hpos : 1 ≤ maxRetries) :
    (getAccountInfoWithRetry oracleA maxRetries).attempts ≤ maxRetries ∧
    (getAccountInfoWithRetry oracleA maxRetries).sleeps + 1 ≤ maxRetries ∧
    ((∀ i, ∃ e, oracleA i = Except.error e) →
      (∃ e, (getAccountInfoWithRetry oracleA maxRetries).outcome = FetchOutcome.thrown e) ∧
      (getAccountInfoWithRetry oracleA maxRetries).attempts = maxRetries) ∧
    (getMXEPublicKeyWithRetry oracleK maxRetries).attempts ≤ maxRetries ∧
    ((∀ i, oracleK i = none) →
      (getMXEPublicKeyWithRetry oracleK maxRetries).outcome =
        MxeFetchOutcome.notFoundError maxRetries) := by
  refine ⟨retryLoop_attempts_le oracleA maxRetries 1, ?_, ?_, ?_, ?_⟩
  · have h := retryLoop_sleeps_le oracleA maxRetries 1
    simp only [getAccountInfoWithRetry]
    omega
  · intro herr
    exact retryLoop_all_error oracleA herr maxRetries 1 hpos
  · exact mxeRetryLoop_attempts_le oracleK maxRetries maxRetries 1
  · intro hnone
    exact mxeRetryLoop_all_none oracleK hnone maxRetries maxRetries 1

/-- Witness for C8 (amended) at budget 3 with always-failing oracles. -/
theorem boundedRetry_terminal_error_witness :
    1 ≤ 3 ∧
    ((getAccountInfoWithRetry alwaysThrowOracle 3).attempts ≤ 3 ∧
    (getAccountInfoWithRetry alwaysThrowOracle 3).sleeps + 1 ≤ 3 ∧
    ((∀ i, ∃ e, alwaysThrowOracle i = Except.error e) →
      (∃ e, (getAccountInfoWithRetry alwaysThrowOracle 3).outcome = FetchOutcome.thrown e) ∧
      (getAccountInfoWithRetry alwaysThrowOracle 3).attempts = 3) ∧
    (getMXEPublicKeyWithRetry neverKeyOracle 3).attempts ≤ 3 ∧
    ((∀ i, neverKeyOracle i = none) →
      (getMXEPublicKeyWithRetry neverKeyOracle 3).outcome =
        MxeFetchOutcome.notFoundError 3)) :=
  ⟨by decide, boundedRetry_terminal_error alwaysThrowOracle neverKeyOracle 3 (by decide)⟩

/-- A lowercase ASCII word, the claim's snake-case domain: nonempty and all
characters in a-z. -/
def IsLowerWord (w : List Char) : Prop :=
  w ≠ [] ∧ ∀ c ∈ w, 97 ≤ c.toNat ∧ c.toNat ≤ 122

/-- Join words with single underscores: the snake-case character stream the
claim quantifies over. -/
def snakeCaseChars : List (List Char) → List Char
  | [] => []
  | [w] => w
  | w :: ws => w ++ '_' :: snakeCaseChars ws

/-- The snake-case string of a word list. -/
def snakeCaseRender (ws : List (List Char)) : String := ⟨snakeCaseChars ws⟩

/-- Uppercase a word's first character. -/
def capitalizeWord : List Char → List Char
  | [] => []
  | c :: cs => jsToUpper c :: cs

/-- The PascalCase form the claim describes, written from its words: every
underscore removed, the letter that followed it uppercased, and the first
character uppercased — each word capitalized, then concatenated. -/
def specPascalCase (ws : List (List Char)) : String :=
  ⟨(ws.map capitalizeWord).flatten⟩

theorem lower_isWordChar (c : Char) (h : 97 ≤ c.toNat ∧ c.toNat ≤ 122) :
    isWordChar c = true := by
  simp only [isWordChar, Bool.or_eq_true, Bool.and_eq_true, Nat.ble_eq]
  exact Or.inl (Or.inl (Or.inl ⟨h.1, h.2⟩))

theorem lower_not_underscore (c : Char) (h : 97 ≤ c.toNat ∧ c.toNat ≤ 122) :
    (c == '_') = false := by
  refine beq_eq_false_iff_ne.mpr ?_
  intro hc
  subst hc
  have : ('_').toNat = 95 := by decide
  omega

theorem replace_append_no_underscore (w l : List Char)
    (hw : ∀ c ∈ w, 97 ≤ c.toNat ∧ c.toNat ≤ 122) :
    replaceUnderscorePairs (w ++ l) = w ++ replaceUnderscorePairs l := by
  induction w with
  | nil => simp
  | cons c rest ih =>
    have hc : (c == '_') = false :=
      lower_not_underscore c (hw c (List.mem_cons_self c rest))
    have hrest : ∀ x ∈ rest, 97 ≤ x.toNat ∧ x.toNat ≤ 122 :=
      fun x hx => hw x (List.mem_cons_of_mem c hx)
    cases hrl : rest ++ l with
    | nil =>
      obtain ⟨hr, hl⟩ := List.append_eq_nil.mp hrl
      subst hr
      subst hl
      simp [replaceUnderscorePairs]
    | cons c2 r2 =>
      calc replaceUnderscorePairs (c :: rest ++ l)
          = replaceUnderscorePairs (c :: c2 :: r2) := by rw [List.cons_append, hrl]
        _ = c :: replaceUnderscorePairs (c2 :: r2) := by
              simp [replaceUnderscorePairs, hc]
        _ = c :: replaceUnderscorePairs (rest ++ l) := by rw [hrl]
        _ = c :: (rest ++ replaceUnderscorePairs l) := by rw [ih hrest]
        _ = (c :: rest) ++ replaceUnderscorePairs l := rfl

theorem snakeCaseChars_cons_cons (c : Char) (cs : List Char)
    (rest : List (List Char)) :
    snakeCaseChars ((c :: cs) :: rest) = c :: snakeCaseChars (cs :: rest) := by
  cases rest <;> simp [snakeCaseChars]

theorem replace_snake :
    ∀ ws : List (List Char), (∀ v ∈ ws, IsLowerWord v) →
    ∀ w : List Char, (∀ c ∈ w, 97 ≤ c.toNat ∧ c.toNat ≤ 122) →
    replaceUnderscorePairs (snakeCaseChars (w :: ws)) =
      w ++ (ws.map capitalizeWord).flatten := by
  intro ws
  induction ws with
  | nil =>
    intro _ w hw
    have h := replace_append_no_underscore w [] hw
    simpa [snakeCaseChars, replaceUnderscorePairs] using h
  | cons w2 rest ih =>
    intro hws w hw
    obtain ⟨hne2, hlow2⟩ := hws w2 (List.mem_cons_self w2 rest)
    obtain ⟨c2, cs2, rfl⟩ := List.exists_cons_of_ne_nil hne2
    have hrest : ∀ v ∈ rest, IsLowerWord v :=
      fun v hv => hws v (List.mem_cons_of_mem _ hv)
    have hc2 := hlow2 c2 (List.mem_cons_self c2 cs2)
    have hcs2 : ∀ c ∈ cs2, 97 ≤ c.toNat ∧ c.toNat ≤ 122 :=
      fun c hc => hlow2 c (List.mem_cons_of_mem c2 hc)
    have hsnake : snakeCaseChars (w :: (c2 :: cs2) :: rest)
        = w ++ '_' :: c2 :: snakeCaseChars (cs2 :: rest) := by
      cases rest <;> simp [snakeCaseChars, snakeCaseChars_cons_cons]
    rw [hsnake, replace_append_no_underscore w _ hw]
    have hstep : replaceUnderscorePairs ('_' :: c2 :: snakeCaseChars (cs2 :: rest))
        = jsToUpper c2 :: replaceUnderscorePairs (snakeCaseChars (cs2 :: rest)) := by
      simp [replaceUnderscorePairs, lower_isWordChar c2 hc2]
    rw [hstep, ih hrest cs2 hcs2]
    simp [capitalizeWord]

instance decIsLowerWord (w : List Char) : Decidable (IsLowerWord w) :=
  inferInstanceAs (Decidable (w ≠ [] ∧ ∀ c ∈ w, 97 ≤ c.toNat ∧ c.toNat ≤ 122))

/-- C10: toPascalCase maps every snake-case name — nonempty lowercase words
joined by single underscores — to its PascalCase form (underscores removed,
each following letter and the first character uppercased), and the three
circuit names yield exactly the dynamic dispatch method names
initShuffleAndDealCompDef, initRevealCommunityCardsCompDef and
initEvaluateHandsAndPayoutCompDef. -/
theorem toPascalCase_snake (ws : List (List Char)) (hne : ws ≠ [])
    (hw : ∀ v ∈ ws, IsLowerWord v) :
    toPascalCase (snakeCaseRender ws) = specPascalCase ws ∧
    initCompDefMethodName "shuffle_and_deal" = "initShuffleAndDealCompDef" ∧
    initCompDefMethodName "reveal_community_cards" = "initRevealCommunityCardsCompDef" ∧
    initCompDefMethodName "evaluate_hands_and_payout" =
      "initEvaluateHandsAndPayoutCompDef" := by
  refine ⟨?_, by decide, by decide, by decide⟩
  obtain ⟨w, rest, rfl⟩ := List.exists_cons_of_ne_nil hne
  obtain ⟨hne1, hlow1⟩ := hw w (List.mem_cons_self w rest)
  obtain ⟨c, cs, rfl⟩ := List.exists_cons_of_ne_nil hne1
  have hrest : ∀ v ∈ rest, IsLowerWord v :=
    fun v hv => hw v (List.mem_cons_of_mem _ hv)
  have hc := hlow1 c (List.mem_cons_self c cs)
  have hrep := replace_snake rest hrest (c :: cs) hlow1
  show (⟨upperFirstWordChar
      (replaceUnderscorePairs (snakeCaseChars ((c :: cs) :: rest)))⟩ : String) = _
  rw [hrep]
  simp [upperFirstWordChar, lower_isWordChar c hc, specPascalCase, capitalizeWord]

/-- Witness for C10 at the word list of "shuffle_and_deal". -/
theorem toPascalCase_snake_witness :
    (["shuffle".data, "and".data, "deal".data] : List (List Char)) ≠ [] ∧
    (∀ v ∈ (["shuffle".data, "and".data, "deal".data] : List (List Char)), IsLowerWord v) ∧
    (toPascalCase (snakeCaseRender ["shuffle".data, "and".data, "deal".data]) =
        specPascalCase ["shuffle".data, "and".data, "deal".data] ∧
    initCompDefMethodName "shuffle_and_deal" = "initShuffleAndDealCompDef" ∧
    initCompDefMethodName "reveal_community_cards" = "initRevealCommunityCardsCompDef" ∧
    initCompDefMethodName "evaluate_hands_and_payout" =
      "initEvaluateHandsAndPayoutCompDef") :=
  ⟨by decide, by decide,
    toPascalCase_snake ["shuffle".data, "and".data, "deal".data] (by decide) (by decide)⟩

end AcesUnknown
